import Mathlib

/-!
Shallow embedding of `scripts/docs-guardrails.mjs`, the documentation
guardrails checker: manifest resolution (env override, sibling repo,
remote fetch, vendored fallback), tool-name extraction from a JSON
manifest, whole-word case-insensitive coverage checking of tool names
against `.mdx` files, and a banned-domain line scanner, together with
the top-level run loop and its exit policy.

The filesystem is modelled as an association list from paths to file
contents plus a list of existing directories; the environment and the
network are explicit fields of a `World` record.  JavaScript values
occurring in the manifest are modelled by a `Json` inductive; JS
truthiness and the `||` operator are modelled explicitly.  Regular
expression testing of the escaped whole-word pattern
`(^|[^a-z0-9_])name([^a-z0-9_]|$)` with the `i` flag is modelled
semantically: the escaped name denotes a literal, so a test succeeds
exactly when the name occurs (ASCII case folded) at some position whose
neighbours are not word characters.
-/

/-- JSON/JavaScript values as they occur in a parsed tool manifest. -/
inductive Json where
  | null
  | bool (b : Bool)
  | num (n : Int)
  | str (s : String)
  | arr (xs : List Json)
  | obj (fields : List (String × Json))
deriving Repr, BEq

/-- Association-list lookup used for JS property access on objects. -/
def lookupField : List (String × Json) → String → Option Json
  | [], _ => none
  | (k, v) :: rest, key => if k = key then some v else lookupField rest key

/-- Models `t?.k` for a manifest entry `t`: property access on an object,
`undefined` (here `none`) on every other value. -/
def getField (j : Json) (k : String) : Option Json :=
  match j with
  | Json.obj fields => lookupField fields k
  | _ => none

/-- JavaScript truthiness of a `Json` value. -/
def truthy : Json → Bool
  | Json.null => false
  | Json.bool b => b
  | Json.num n => n != 0
  | Json.str s => s ≠ ""
  | Json.arr _ => true
  | Json.obj _ => true

/-- Models the JavaScript `||` operator on possibly-undefined values:
returns the left operand when it is present and truthy, otherwise the
right operand. -/
def jsOr (a b : Option Json) : Option Json :=
  match a with
  | some v => if truthy v then some v else b
  | none => b

/-- Models line 96-99 of the script: a bare array is used as the list of
tool entries; otherwise, a truthy value whose `tools` property is an
array contributes that array; everything else yields no entries. -/
def toolsOf (j : Json) : List Json :=
  match j with
  | Json.arr xs => xs
  | _ =>
    if truthy j then
      match getField j "tools" with
      | some (Json.arr xs) => xs
      | _ => []
    else []

/-- A character the JavaScript `trim` removes (ASCII whitespace). -/
def isJsSpace (c : Char) : Bool :=
  c == ' ' || c == '\t' || c == '\n' || c == '\r' || c == '\x0b' || c == '\x0c'

/-- Models `s.trim()`: strips ASCII whitespace from both ends (modelled
over the character list so that it evaluates by kernel reduction). -/
def jsTrim (s : String) : String :=
  String.mk (((s.data.dropWhile isJsSpace).reverse.dropWhile isJsSpace).reverse)

/-- Models lines 103-104: `const n = t?.name || t?.tool || t?.id;` and
the guard `if (typeof n === "string" && n.trim()) names.push(n.trim())`.
Returns the name contributed by one manifest entry, when any. -/
def entryName (t : Json) : Option String :=
  match jsOr (jsOr (getField t "name") (getField t "tool")) (getField t "id") with
  | some (Json.str s) => if jsTrim s = "" then none else some (jsTrim s)
  | _ => none

/-- Helper for `dedupKeepFirst`: keeps the elements not seen yet,
threading the set of elements already emitted. -/
def dedupKeepFirstAux (seen : List String) : List String → List String
  | [] => []
  | x :: xs => if x ∈ seen then dedupKeepFirstAux seen xs else x :: dedupKeepFirstAux (x :: seen) xs

/-- Models `Array.from(new Set(names))`: removes duplicates keeping the
first occurrence of each element. -/
def dedupKeepFirst (l : List String) : List String :=
  dedupKeepFirstAux [] l

/-- Lexicographic comparison of character lists by code point,
modelling the JS default string comparison used by `Array.sort()`. -/
def charListLe : List Char → List Char → Bool
  | [], _ => true
  | _ :: _, [] => false
  | a :: as, b :: bs =>
    if a.toNat < b.toNat then true
    else if b.toNat < a.toNat then false
    else charListLe as bs

/-- The JS string order `a <= b`. -/
def jsLe (a b : String) : Bool :=
  charListLe a.data b.data

/-- Models `uniq.sort()`: ascending lexicographic sort (JS default sort
compares strings; a stable insertion sort realises it). -/
def jsSort (l : List String) : List String :=
  l.insertionSort (fun a b => jsLe a b = true)

/-- Models `extractToolNames` (lines 95-110): collect the entry names,
deduplicate preserving first occurrence, and sort ascending. -/
def extractToolNames (j : Json) : List String :=
  jsSort (dedupKeepFirst ((toolsOf j).filterMap entryName))

/-- Models `path.join` of two segments (normalisation of `..` segments
is not needed by the checked properties and is left symbolic). -/
def pathJoin (a b : String) : String := a ++ "/" ++ b

/-- Models `p.endsWith(suffix)` (defined over the character lists so
that it evaluates by kernel reduction). -/
def strEndsWith (p suffix : String) : Bool :=
  suffix.data.reverse.isPrefixOf p.data.reverse

/-- Models `a` being a prefix of `b` at the string level. -/
def strIsPrefix (a b : String) : Bool :=
  a.data.isPrefixOf b.data

/-- Models `path.isAbsolute` on POSIX paths. -/
def isAbsolutePath (p : String) : Bool := strIsPrefix "/" p

/-- Models `path.basename`: the last `/`-separated segment of a path. -/
def basename (p : String) : String :=
  String.mk ((p.data.reverse.takeWhile (fun c => c ≠ '/')).reverse)

/-- Models `path.relative(root, p)` for files lying under `root`. -/
def relativePath (root p : String) : String :=
  if strIsPrefix (root ++ "/") p then String.mk (p.data.drop (root.data.length + 1)) else p

/-- Models `walkFiles(dir, predicate)` over the modelled filesystem: the
files lying under `dir` whose path satisfies the predicate, in
enumeration order. -/
def walkFiles (files : List (String × String)) (dir : String) (pred : String → Bool) :
    List (String × String) :=
  files.filter (fun fc => strIsPrefix (dir ++ "/") fc.1 && pred fc.1)

/-- Helper for `splitLines`: drops a carriage return that immediately
precedes the line feed just consumed (the accumulator is reversed). -/
def dropCR (acc : List Char) : List Char :=
  match acc with
  | c :: rest => if c = '\r' then rest else acc
  | [] => []

/-- Helper for `splitLines`: consumes the remaining characters with the
current (reversed) line accumulator. -/
def splitLinesAux : List Char → List Char → List String
  | [], acc => [String.mk acc.reverse]
  | c :: rest, acc =>
    if c = '\n' then String.mk (dropCR acc).reverse :: splitLinesAux rest []
    else splitLinesAux rest (c :: acc)

/-- Models `txt.split(/\r?\n/)`: splits on a line feed optionally
preceded by a carriage return; a lone carriage return is ordinary
content. -/
def splitLines (s : String) : List String :=
  splitLinesAux s.data []

/-- Models `line.includes(sub)`: substring containment. -/
def includesStr (line sub : String) : Bool :=
  (List.range (line.data.length + 1)).any (fun i => sub.data.isPrefixOf (line.data.drop i))

/-- The hardcoded banned-domain list (lines 113-116). -/
def bannedDomains : List String :=
  ["docs.adsgateway.io", "status.adsgateway.io"]

/-- Predicate selecting the files the banned-domain scanner reads
(line 119): `.mdx` or `.md` extension, or basename exactly `docs.json`. -/
def docPred (p : String) : Bool :=
  strEndsWith p ".mdx" || strEndsWith p ".md" || basename p == "docs.json"

/-- A banned-domain hit: file path, 1-indexed line number, matched
domain, and the trimmed line text (the `hits.push` record of line 130). -/
structure Hit where
  file : String
  line : Nat
  domain : String
  text : String
deriving Repr, DecidableEq

/-- The hits one (1-indexed via `il.1 + 1`) line of a file contributes:
one per banned domain the line contains (the inner loop of lines
128-132). -/
def perLineHits (p : String) (il : Nat × String) : List Hit :=
  bannedDomains.filterMap (fun d =>
    if includesStr il.2 d then some ⟨p, il.1 + 1, d, jsTrim il.2⟩ else none)

/-- The hits one file contributes: its content split into lines, each
line scanned (the middle loop of lines 126-133). -/
def perFileHits (fc : String × String) : List Hit :=
  (splitLines fc.2).enum.flatMap (perLineHits fc.1)

/-- Models `findBannedDomains(repoRoot)` (lines 112-137): walk the
documentation files under the repository root, split each into lines,
and record one hit per banned domain contained in a line. -/
def findBannedDomains (files : List (String × String)) (repoRoot : String) : List Hit :=
  (walkFiles files repoRoot docPred).flatMap perFileHits

/-- ASCII case folding, modelling the regex `i` flag on the ASCII tool
names and documentation text the script handles. -/
def foldCase (c : Char) : Char :=
  if 65 ≤ c.toNat ∧ c.toNat ≤ 90 then Char.ofNat (c.toNat + 32) else c

/-- A character matched by `[a-z0-9_]` under the `i` flag: ASCII letter,
digit, or underscore. -/
def isWordChar (c : Char) : Bool :=
  (97 ≤ c.toNat && c.toNat ≤ 122) || (65 ≤ c.toNat && c.toNat ≤ 90) ||
    (48 ≤ c.toNat && c.toNat ≤ 57) || c == '_'

/-- One candidate match position for the pattern
`(^|[^a-z0-9_])name([^a-z0-9_]|$)` with flag `i`: the (escaped, hence
literal) name occurs case folded at `i`, the previous character (when
any) is not a word character, and the following character (when any) is
not a word character. -/
def matchAt (name text : List Char) (i : Nat) : Bool :=
  (name.map foldCase).isPrefixOf ((text.drop i).map foldCase)
  && (i == 0 || !isWordChar (text.getD (i - 1) ' '))
  && (text.length ≤ i + name.length || !isWordChar (text.getD (i + name.length) ' '))

/-- Models `new RegExp(`(^|[^a-z0-9_])${escapeRegExp(name)}([^a-z0-9_]|$)`, "i").test(text)`
(line 145-146): the pattern matches somewhere in the document text. -/
def wordPatternTest (name text : String) : Bool :=
  (List.range (text.data.length + 1)).any (fun i => matchAt name.data text.data i)

/-- Models `checkToolsCovered(toolNames, toolsDocsRoot)` (lines
139-151): collects the `.mdx` corpus under the tools documentation root
and the names whose pattern matches no file, in manifest order. -/
def checkToolsCovered (files : List (String × String)) (toolNames : List String)
    (toolsDocsRoot : String) : List (String × String) × List String :=
  let toolFiles := walkFiles files toolsDocsRoot (fun p => strEndsWith p ".mdx")
  let missing := toolNames.filter (fun name => !(toolFiles.any (fun fc => wordPatternTest name fc.2)))
  (toolFiles, missing)

/-- The state a run of the script observes: working directory, the four
environment variables it reads, the filesystem (files as an association
list from path to content, in walk enumeration order, plus existing
directories), the JSON parser, and the network. -/
structure World where
  cwd : String
  envMcpToolsJsonPath : String
  envMcpToolsJsonUrl : String
  envGithubToken : String
  envGhToken : String
  files : List (String × String)
  dirs : List String
  parse : String → Except String Json
  fetch : String → Except String (Option Nat × String)

/-- Association-list lookup of a file's content by path. -/
def lookupFile : List (String × String) → String → Option String
  | [], _ => none
  | (q, c) :: rest, p => if q = p then some c else lookupFile rest p

/-- Models `readText` / `fs.readFileSync`: returns the content, or
throws (here: `Except.error`) when the path names no file. -/
def readText (w : World) (p : String) : Except String String :=
  match lookupFile w.files p with
  | some c => Except.ok c
  | none => Except.error ("ENOENT: no such file or directory, open " ++ p)

/-- Models `fs.existsSync`: the path names a file or a directory. -/
def existsPath (w : World) (p : String) : Bool :=
  (lookupFile w.files p).isSome || w.dirs.any (fun d => d == p)

/-- An HTTP request as the script builds it: method and headers in
insertion order. -/
structure HttpRequest where
  method : String
  headers : List (String × String)

/-- Models line 27: `process.env.GITHUB_TOKEN || process.env.GH_TOKEN || ""`. -/
def tokenOf (w : World) : String :=
  if w.envGithubToken ≠ "" then w.envGithubToken
  else if w.envGhToken ≠ "" then w.envGhToken
  else ""

/-- The request `fetchJson` issues (lines 29-37): a GET with `Accept`,
an `Authorization: Bearer` header exactly when a token is present, and
the fixed user agent. -/
def requestFor (w : World) : HttpRequest :=
  let token := tokenOf w
  { method := "GET"
    headers :=
      [("Accept", "application/json")] ++
      (if token ≠ "" then [("Authorization", "Bearer " ++ token)] else []) ++
      [("User-Agent", "adsgateway-docs-guardrails")] }

/-- Models lines 48-52: parse the response body, wrapping a parse error
with the offending URL. -/
def parseBody (w : World) (url body : String) : Except String Json :=
  match w.parse body with
  | Except.ok j => Except.ok j
  | Except.error m => Except.error ("Invalid JSON from " ++ url ++ ": " ++ m)

/-- Models `fetchJson(url)` (lines 26-59): a transport error rejects as
is; a status of at least 400 rejects with status and URL; otherwise the
body is parsed as JSON. -/
def fetchJson (w : World) (url : String) : Except String Json :=
  match w.fetch url with
  | Except.error e => Except.error e
  | Except.ok (status, body) =>
    match status with
    | some code =>
      if 400 ≤ code then Except.error ("Fetch failed (" ++ toString code ++ ") for " ++ url)
      else parseBody w url body
    | none => parseBody w url body

/-- The conventional sibling-repository manifest path of line 71. -/
def siblingManifestPath (repoRoot : String) : String :=
  pathJoin (pathJoin (pathJoin (pathJoin (pathJoin repoRoot "..") "adsgpt-gateway") "fastmcp-server") "docs") "mcp-tools.json"

/-- The vendored manifest path of line 82. -/
def vendoredManifestPath (repoRoot : String) : String :=
  pathJoin (pathJoin repoRoot "tooling") "mcp-tools.json"

/-- The resolution-failure message of lines 87-92 (two sentences joined
with a space). -/
def noManifestMsg : String :=
  "Unable to locate mcp-tools.json. Set MCP_TOOLS_JSON_PATH or MCP_TOOLS_JSON_URL, or add tooling/mcp-tools.json."

/-- Models `loadMcpToolsJson()` (lines 61-93): try the explicit
`MCP_TOOLS_JSON_PATH` override, then the sibling-repository path when
that file exists, then the `MCP_TOOLS_JSON_URL` remote fetch, then the
vendored file; fail with `noManifestMsg` when none applies. -/
def loadMcpToolsJson (w : World) : Except String Json :=
  let repoRoot := w.cwd
  let envPath := jsTrim w.envMcpToolsJsonPath
  if envPath ≠ "" then
    let resolved := if isAbsolutePath envPath then envPath else pathJoin repoRoot envPath
    (readText w resolved).bind w.parse
  else if existsPath w (siblingManifestPath repoRoot) then
    (readText w (siblingManifestPath repoRoot)).bind w.parse
  else
    let url := jsTrim w.envMcpToolsJsonUrl
    if url ≠ "" then fetchJson w url
    else if existsPath w (vendoredManifestPath repoRoot) then
      (readText w (vendoredManifestPath repoRoot)).bind w.parse
    else Except.error noManifestMsg

/-- Outcome of one run: exit code, stdout lines, stderr lines. -/
structure RunResult where
  exitCode : Nat
  stdout : List String
  stderr : List String
deriving Repr, DecidableEq

/-- The missing-tools diagnostic block of lines 170-171. -/
def missingBlock (missing : List String) : List String :=
  "\n[guardrails] Missing tools documentation entries (tools/*.mdx):" ::
    missing.map (fun n => "- " ++ n)

/-- The banned-domain diagnostic block of lines 176-179. -/
def bannedBlock (repoRoot : String) (hits : List Hit) : List String :=
  "\n[guardrails] Banned domains found:" ::
    hits.map (fun h =>
      "- " ++ h.domain ++ " in " ++ relativePath repoRoot h.file ++ ":" ++ toString h.line
        ++ " :: " ++ h.text)

/-- The top-level catch handler output of lines 190-192 (the message of
the thrown error; a stack, when available, carries the same message). -/
def failedBlock (msg : String) : List String :=
  ["\n[guardrails] Failed:", msg]

/-- The success summary line of line 186. -/
def okLine (n : Nat) : String :=
  "[guardrails] OK: " ++ toString n ++ " tools covered; no banned domains found."

/-- Models `main()` with its top-level `catch` (lines 153-193): require
the `tools/` directory, resolve the manifest, extract names, run both
checks, and report.  A thrown error reaches the catch handler, which
prints the failure block and exits 1. -/
def mainRun (w : World) : RunResult :=
  let toolsDocsRoot := pathJoin w.cwd "tools"
  if existsPath w toolsDocsRoot then
    match loadMcpToolsJson w with
    | Except.error e => { exitCode := 1, stdout := [], stderr := failedBlock e }
    | Except.ok j =>
      let toolNames := extractToolNames j
      let missing := (checkToolsCovered w.files toolNames toolsDocsRoot).2
      let bannedHits := findBannedDomains w.files w.cwd
      if missing.isEmpty && bannedHits.isEmpty then
        { exitCode := 0, stdout := [okLine toolNames.length], stderr := [] }
      else
        { exitCode := 1, stdout := [],
          stderr := (if missing.isEmpty then [] else missingBlock missing) ++
                    (if bannedHits.isEmpty then [] else bannedBlock w.cwd bannedHits) }
  else { exitCode := 1, stdout := [], stderr := failedBlock "Missing tools/ directory in docs repo." }

/-- The success condition of a run: the `tools/` directory exists, the
manifest resolves, and both violation lists are empty. -/
def mainOk (w : World) : Bool :=
  existsPath w (pathJoin w.cwd "tools") &&
    match loadMcpToolsJson w with
    | Except.error _ => false
    | Except.ok j =>
      (checkToolsCovered w.files (extractToolNames j) (pathJoin w.cwd "tools")).2.isEmpty &&
        (findBannedDomains w.files w.cwd).isEmpty

/-- Example world with `GITHUB_TOKEN` set and a remote manifest URL
whose fetch returns HTTP 404. -/
def wFetch404 : World :=
  { cwd := "/r", envMcpToolsJsonPath := "", envMcpToolsJsonUrl := "u",
    envGithubToken := "tok", envGhToken := "", files := [], dirs := [],
    parse := fun _ => Except.error "bad",
    fetch := fun _ => Except.ok (some 404, "") }

/-- Example world with a `tools/` directory but no manifest source at
all: no override, no sibling file, no URL, no vendored file. -/
def wNoManifest : World :=
  { cwd := "/r", envMcpToolsJsonPath := "", envMcpToolsJsonUrl := "",
    envGithubToken := "", envGhToken := "",
    files := [("/r/tools/a.mdx", "search_ads here")], dirs := ["/r/tools"],
    parse := fun _ => Except.error "bad",
    fetch := fun _ => Except.error "no network" }

/-- Example world whose explicit override resolves to a manifest that
parses to a bare string (so no tool entries), over a clean tree. -/
def wEmptyManifest : World :=
  { cwd := "/r", envMcpToolsJsonPath := "m.json", envMcpToolsJsonUrl := "",
    envGithubToken := "", envGhToken := "",
    files := [("/r/m.json", "M"), ("/r/tools/a.mdx", "hello")], dirs := ["/r/tools"],
    parse := fun _ => Except.ok (Json.str "nope"),
    fetch := fun _ => Except.error "no network" }

/-- Example world whose working directory has no `tools/` directory. -/
def wNoTools : World :=
  { cwd := "/r", envMcpToolsJsonPath := "", envMcpToolsJsonUrl := "",
    envGithubToken := "", envGhToken := "",
    files := [("/r/docs.json", "docs.adsgateway.io")], dirs := [],
    parse := fun _ => Except.error "bad",
    fetch := fun _ => Except.error "no network" }

/-! ## Helper lemmas -/

/-- The name an entry contributes once the `||` chain has produced a
candidate: a string with non-empty trim contributes its trimmed form. -/
def nameFromCandidate (o : Option Json) : Option String :=
  match o with
  | some (Json.str s) => if jsTrim s = "" then none else some (jsTrim s)
  | _ => none

/-- The first present-and-truthy value in a list of candidates. -/
def firstTruthy (l : List (Option Json)) : Option Json :=
  (l.filterMap id).find? truthy

/-- Written from the claim text of C2, not from the source: the name is
the first present field among `name`, `tool`, `id` holding a string
with non-empty trim, other values being passed over. -/
def claimEntryName (t : Json) : Option String :=
  ([getField t "name", getField t "tool", getField t "id"].filterMap nameFromCandidate).head?

theorem entryName_eq_nameFromCandidate (t : Json) :
    entryName t =
      nameFromCandidate (jsOr (jsOr (getField t "name") (getField t "tool")) (getField t "id")) := by
  unfold entryName nameFromCandidate
  rfl

theorem nameFromCandidate_of_falsy (v : Json) (h : truthy v = false) :
    nameFromCandidate (some v) = none := by
  cases v with
  | str s =>
    simp only [truthy, ne_eq, decide_not, Bool.not_eq_false', decide_eq_true_eq] at h
    subst h
    decide
  | null => rfl
  | bool b => rfl
  | num n => rfl
  | arr xs => simp [truthy] at h
  | obj fs => simp [truthy] at h

theorem nameFromCandidate_none : nameFromCandidate none = none := rfl

theorem firstTruthy_nil : firstTruthy [] = none := rfl

theorem firstTruthy_none_cons (l : List (Option Json)) :
    firstTruthy (none :: l) = firstTruthy l := rfl

theorem firstTruthy_some_cons (v : Json) (l : List (Option Json)) :
    firstTruthy (some v :: l) = if truthy v then some v else firstTruthy l := by
  simp only [firstTruthy, List.filterMap_cons, id]
  rw [List.find?]
  cases h : truthy v <;> simp [h]

theorem jsOr_none (b : Option Json) : jsOr none b = b := rfl

theorem jsOr_some (v : Json) (b : Option Json) :
    jsOr (some v) b = if truthy v then some v else b := rfl

theorem chain_two (b c : Option Json) :
    nameFromCandidate (jsOr b c) = nameFromCandidate (firstTruthy [b, c]) := by
  cases b with
  | none =>
    rw [jsOr_none, firstTruthy_none_cons]
    cases c with
    | none => rfl
    | some v =>
      rw [firstTruthy_some_cons, firstTruthy_nil]
      cases h : truthy v with
      | true => simp
      | false => simp [nameFromCandidate_of_falsy v h, nameFromCandidate_none]
  | some v =>
    rw [jsOr_some, firstTruthy_some_cons]
    cases h : truthy v with
    | true => simp
    | false =>
      rw [if_neg Bool.false_ne_true, if_neg Bool.false_ne_true]
      cases c with
      | none => rfl
      | some u =>
        rw [firstTruthy_some_cons, firstTruthy_nil]
        cases hu : truthy u with
        | true => simp
        | false => simp [nameFromCandidate_of_falsy u hu, nameFromCandidate_none]

theorem chain_three (a b c : Option Json) :
    nameFromCandidate (jsOr (jsOr a b) c) = nameFromCandidate (firstTruthy [a, b, c]) := by
  cases a with
  | none => rw [jsOr_none, firstTruthy_none_cons]; exact chain_two b c
  | some v =>
    rw [jsOr_some, firstTruthy_some_cons]
    cases h : truthy v with
    | true => simp [jsOr_some, h]
    | false =>
      rw [if_neg Bool.false_ne_true, if_neg Bool.false_ne_true]
      exact chain_two b c

theorem mem_dedupKeepFirstAux (a : String) :
    ∀ (l seen : List String), a ∈ dedupKeepFirstAux seen l ↔ a ∈ l ∧ a ∉ seen := by
  intro l
  induction l with
  | nil => intro seen; simp [dedupKeepFirstAux]
  | cons x xs ih =>
    intro seen
    by_cases hx : x ∈ seen
    · simp only [dedupKeepFirstAux, if_pos hx, ih, List.mem_cons]
      constructor
      · rintro ⟨h, hs⟩
        exact ⟨Or.inr h, hs⟩
      · rintro ⟨h | h, hs⟩
        · subst h; exact absurd hx hs
        · exact ⟨h, hs⟩
    · simp only [dedupKeepFirstAux, if_neg hx, List.mem_cons, ih]
      constructor
      · rintro (rfl | ⟨h, hs⟩)
        · exact ⟨Or.inl rfl, hx⟩
        · exact ⟨Or.inr h, fun hc => hs (Or.inr hc)⟩
      · rintro ⟨rfl | h, hs⟩
        · left; rfl
        · by_cases hax : a = x
          · left; exact hax
          · right
            exact ⟨h, by simp [List.mem_cons, hax, hs]⟩

theorem mem_dedupKeepFirst (a : String) (l : List String) :
    a ∈ dedupKeepFirst l ↔ a ∈ l := by
  unfold dedupKeepFirst
  rw [mem_dedupKeepFirstAux]
  simp

theorem nodup_dedupKeepFirstAux : ∀ (l seen : List String), (dedupKeepFirstAux seen l).Nodup := by
  intro l
  induction l with
  | nil => intro seen; simp [dedupKeepFirstAux]
  | cons x xs ih =>
    intro seen
    by_cases hx : x ∈ seen
    · simp only [dedupKeepFirstAux, if_pos hx]
      exact ih seen
    · simp only [dedupKeepFirstAux, if_neg hx, List.nodup_cons]
      refine ⟨?_, ih (x :: seen)⟩
      intro hmem
      rw [mem_dedupKeepFirstAux] at hmem
      exact hmem.2 (List.mem_cons_self x seen)

theorem nodup_dedupKeepFirst (l : List String) : (dedupKeepFirst l).Nodup :=
  nodup_dedupKeepFirstAux l []

theorem charListLe_total : ∀ a b : List Char, charListLe a b = true ∨ charListLe b a = true := by
  intro a
  induction a with
  | nil => intro b; left; rfl
  | cons x xs ih =>
    intro b
    cases b with
    | nil => right; rfl
    | cons y ys =>
      by_cases h1 : x.toNat < y.toNat
      · left; simp [charListLe, h1]
      · by_cases h2 : y.toNat < x.toNat
        · right; simp [charListLe, h2]
        · rcases ih ys with h | h
          · left; simp [charListLe, h1, h2, h]
          · right; simp [charListLe, h1, h2, h]

theorem charListLe_trans :
    ∀ a b c : List Char, charListLe a b = true → charListLe b c = true →
      charListLe a c = true := by
  intro a
  induction a with
  | nil => intro b c _ _; rfl
  | cons x xs ih =>
    intro b c hab hbc
    cases b with
    | nil => simp [charListLe] at hab
    | cons y ys =>
      cases c with
      | nil => simp [charListLe] at hbc
      | cons z zs =>
        simp only [charListLe] at hab hbc ⊢
        by_cases h1 : x.toNat < y.toNat
        · by_cases h2 : y.toNat < z.toNat
          · simp [Nat.lt_trans h1 h2]
          · rw [if_neg h2] at hbc
            by_cases h3 : z.toNat < y.toNat
            · rw [if_pos h3] at hbc
              exact absurd hbc (by simp)
            · have hxz : x.toNat < z.toNat := by omega
              simp [hxz]
        · rw [if_neg h1] at hab
          by_cases h1b : y.toNat < x.toNat
          · rw [if_pos h1b] at hab
            exact absurd hab (by simp)
          · rw [if_neg h1b] at hab
            by_cases h2 : y.toNat < z.toNat
            · have hxz : x.toNat < z.toNat := by omega
              simp [hxz]
            · rw [if_neg h2] at hbc
              by_cases h3 : z.toNat < y.toNat
              · rw [if_pos h3] at hbc
                exact absurd hbc (by simp)
              · rw [if_neg h3] at hbc
                have hxz : ¬ x.toNat < z.toNat := by omega
                have hzx : ¬ z.toNat < x.toNat := by omega
                rw [if_neg hxz, if_neg hzx]
                exact ih ys zs hab hbc

theorem perm_jsSort (l : List String) : (jsSort l).Perm l :=
  List.perm_insertionSort (fun a b => jsLe a b = true) l

theorem sorted_jsSort (l : List String) :
    List.Sorted (fun a b : String => jsLe a b = true) (jsSort l) :=
  @List.sorted_insertionSort String (fun a b => jsLe a b = true) (fun _ _ => instDecidableEqBool _ _)
    ⟨fun a b => charListLe_total a.data b.data⟩
    ⟨fun a b c => charListLe_trans a.data b.data c.data⟩ l

theorem mem_extractToolNames (j : Json) (n : String) :
    n ∈ extractToolNames j ↔ ∃ t ∈ toolsOf j, entryName t = some n := by
  unfold extractToolNames
  rw [(perm_jsSort _).mem_iff, mem_dedupKeepFirst, List.mem_filterMap]

theorem nodup_extractToolNames (j : Json) : (extractToolNames j).Nodup :=
  (perm_jsSort _).nodup_iff.mpr (nodup_dedupKeepFirst _)

/-! ## Claim theorems -/

/-- Claim C2, amended: for every manifest entry, the candidate value is
the first present JS-truthy value among the `name`, `tool`, `id` fields
(an absent field or a falsy value — `null`, `false`, `0`, the empty
string — falls through to the next); the entry contributes a name
exactly when that candidate is a string whose trimmed form is
non-empty, in which case the trimmed string is extracted.  A truthy
non-string candidate, or a whitespace-only string, makes the entry
contribute nothing rather than falling through to the next field. -/
theorem claim_C2_extraction_fallthrough (t : Json) :
    entryName t =
      nameFromCandidate (firstTruthy [getField t "name", getField t "tool", getField t "id"]) ∧
    (∀ v, getField t "name" = some v → truthy v = true → (∀ s, v ≠ Json.str s) →
      entryName t = none) ∧
    (∀ s, getField t "name" = some (Json.str s) → s ≠ "" → jsTrim s = "" →
      entryName t = none) := by
  refine ⟨?_, ?_, ?_⟩
  · rw [entryName_eq_nameFromCandidate]
    exact chain_three _ _ _
  · intro v hv htr hnot
    rw [entryName_eq_nameFromCandidate, hv, jsOr_some, if_pos htr, jsOr_some, if_pos htr]
    cases v with
    | str s => exact absurd rfl (hnot s)
    | null => rfl
    | bool b => rfl
    | num n => rfl
    | arr xs => rfl
    | obj fs => rfl
  · intro s hs hne htrim
    have htr : truthy (Json.str s) = true := by simp [truthy, hne]
    rw [entryName_eq_nameFromCandidate, hs, jsOr_some, if_pos htr, jsOr_some, if_pos htr]
    simp [nameFromCandidate, htrim]

/-- Claim C2, counterexample to the claim as stated: in the entry
`\x7b name: 1, tool: "x" \x7d` the `name` field is not a non-empty
string, so the claim demands fallthrough to `tool` and extraction of
`"x"` (as `claimEntryName`, written from the claim's words, computes);
the code instead skips the entry because `1` is truthy, and the
manifest consisting of this one entry yields no tool names at all. -/
theorem claim_C2_counterexample :
    claimEntryName (Json.obj [("name", Json.num 1), ("tool", Json.str "x")]) = some "x" ∧
    entryName (Json.obj [("name", Json.num 1), ("tool", Json.str "x")]) = none ∧
    extractToolNames (Json.arr [Json.obj [("name", Json.num 1), ("tool", Json.str "x")]]) = [] := by
  refine ⟨?_, ?_, ?_⟩ <;> decide

/-- Witness for the amended C2 theorem at a concrete entry: a truthy
non-string `name` value makes the entry contribute nothing. -/
theorem claim_C2_extraction_fallthrough_witness :
    entryName (Json.obj [("name", Json.num 2), ("id", Json.str "abc")]) = none :=
  (claim_C2_extraction_fallthrough (Json.obj [("name", Json.num 2), ("id", Json.str "abc")])).2.1
    (Json.num 2) rfl rfl (fun _ h => Json.noConfusion h)

/-- Claim C6: the extracted tool-name list is sorted ascending and
deduplicated; a name contributed by several entries (under any of the
recognised keys) occurs exactly once; membership is exactly
contribution by some entry.  Determinism across runs is definitional
here: extraction is a pure function of the manifest. -/
theorem claim_C6_extraction_dedup_sorted (j : Json) :
    List.Sorted (fun a b : String => jsLe a b = true) (extractToolNames j) ∧
    (extractToolNames j).Nodup ∧
    (∀ n, n ∈ extractToolNames j ↔ ∃ t ∈ toolsOf j, entryName t = some n) ∧
    (∀ n, n ∈ extractToolNames j → (extractToolNames j).count n = 1) := by
  refine ⟨sorted_jsSort _, nodup_extractToolNames j, mem_extractToolNames j, ?_⟩
  intro n hn
  exact List.count_eq_one_of_mem (nodup_extractToolNames j) hn

/-- Witness for C6 at the spec's duplicate-name scenario: `toolA`
declared under `name` in one entry and under `id` in another occurs
exactly once, and the output is the sorted pair. -/
theorem claim_C6_extraction_dedup_sorted_witness :
    (extractToolNames (Json.arr
      [Json.obj [("name", Json.str "toolA")],
       Json.obj [("id", Json.str "toolA")],
       Json.obj [("tool", Json.str "toolB")]])).count "toolA" = 1 :=
  (claim_C6_extraction_dedup_sorted (Json.arr
      [Json.obj [("name", Json.str "toolA")],
       Json.obj [("id", Json.str "toolA")],
       Json.obj [("tool", Json.str "toolB")]])).2.2.2 "toolA" (by decide)

/-- Claim C1: the missing-tools list contains exactly the tool names
whose whole-word case-insensitive pattern matches the raw text of no
`.mdx` file under the tools documentation root; when every name matches
some file the list is empty; a name matching no file appears in it; and
the list preserves the (sorted) order of the input names. -/
theorem claim_C1_coverage (files : List (String × String)) (toolNames : List String)
    (root : String) :
    (∀ n, n ∈ (checkToolsCovered files toolNames root).2 ↔
      n ∈ toolNames ∧
        ∀ fc ∈ walkFiles files root (fun p => strEndsWith p ".mdx"),
          wordPatternTest n fc.2 = false) ∧
    ((∀ n ∈ toolNames, ∃ fc ∈ walkFiles files root (fun p => strEndsWith p ".mdx"),
        wordPatternTest n fc.2 = true) →
      (checkToolsCovered files toolNames root).2 = []) ∧
    (∀ n ∈ toolNames,
      (∀ fc ∈ walkFiles files root (fun p => strEndsWith p ".mdx"),
        wordPatternTest n fc.2 = false) →
      n ∈ (checkToolsCovered files toolNames root).2) ∧
    (checkToolsCovered files toolNames root).2.Sublist toolNames := by
  have hmem : ∀ n, n ∈ (checkToolsCovered files toolNames root).2 ↔
      n ∈ toolNames ∧
        ∀ fc ∈ walkFiles files root (fun p => strEndsWith p ".mdx"),
          wordPatternTest n fc.2 = false := by
    intro n
    unfold checkToolsCovered
    simp only [List.mem_filter, Bool.not_eq_true', List.any_eq_false, Bool.not_eq_true]
  refine ⟨hmem, ?_, ?_, ?_⟩
  · intro hcov
    rw [List.eq_nil_iff_forall_not_mem]
    intro n hn
    rw [hmem n] at hn
    obtain ⟨fc, hfc, hw⟩ := hcov n hn.1
    have hfalse := hn.2 fc hfc
    rw [hfalse] at hw
    exact Bool.false_ne_true hw
  · intro n hn hall
    exact (hmem n).mpr ⟨hn, hall⟩
  · unfold checkToolsCovered
    exact List.filter_sublist _

/-- Witness for C1 at the spec's scenario: the manifest declares
`list_campaigns` and `search_ads`, the single tools file mentions only
`search_ads`, and `list_campaigns` is reported missing. -/
theorem claim_C1_coverage_witness :
    "list_campaigns" ∈ (checkToolsCovered [("/r/tools/a.mdx", "use search_ads here")]
      ["list_campaigns", "search_ads"] "/r/tools").2 :=
  (claim_C1_coverage [("/r/tools/a.mdx", "use search_ads here")]
      ["list_campaigns", "search_ads"] "/r/tools").2.2.1 "list_campaigns"
    (by decide) (by decide)

theorem includesStr_iff (line sub : String) :
    includesStr line sub = true ↔ sub.data <:+: line.data := by
  unfold includesStr
  rw [List.any_eq_true]
  constructor
  · rintro ⟨i, _, hpre⟩
    rw [List.isPrefixOf_iff_prefix] at hpre
    obtain ⟨t, ht⟩ := hpre
    exact ⟨line.data.take i, t, by rw [List.append_assoc, ht, List.take_append_drop]⟩
  · rintro ⟨s, t, hst⟩
    refine ⟨s.length, ?_, ?_⟩
    · rw [List.mem_range]
      have hlen := congrArg List.length hst
      simp only [List.length_append] at hlen
      omega
    · rw [List.isPrefixOf_iff_prefix]
      have hdrop : line.data.drop s.length = sub.data ++ t := by
        rw [← hst, List.append_assoc, List.drop_left]
      rw [hdrop]
      exact ⟨t, rfl⟩

theorem dropCR_reverse_prefix (acc : List Char) : (dropCR acc).reverse <+: acc.reverse := by
  cases acc with
  | nil => exact List.prefix_rfl
  | cons a as =>
    by_cases ha : a = '\r'
    · rw [dropCR, if_pos ha, List.reverse_cons]
      exact ⟨[a], rfl⟩
    · rw [dropCR, if_neg ha]

theorem splitLinesAux_mem_within :
    ∀ (cs acc : List Char) (l : String), l ∈ splitLinesAux cs acc →
      l.data <:+: (acc.reverse ++ cs) := by
  intro cs
  induction cs with
  | nil =>
    intro acc l hl
    simp only [splitLinesAux, List.mem_singleton] at hl
    subst hl
    exact ⟨[], [], by simp⟩
  | cons c rest ih =>
    intro acc l hl
    simp only [splitLinesAux] at hl
    by_cases hc : c = '\n'
    · rw [if_pos hc] at hl
      rcases List.mem_cons.mp hl with rfl | hmem
      · have hpre : (String.mk (dropCR acc).reverse).data <+: acc.reverse :=
          dropCR_reverse_prefix acc
        exact (hpre.trans (List.prefix_append acc.reverse (c :: rest))).isInfix
      · have hrec := ih [] l hmem
        simp only [List.reverse_nil, List.nil_append] at hrec
        exact (hrec.trans (List.suffix_cons c rest).isInfix).trans
          (List.suffix_append acc.reverse (c :: rest)).isInfix
    · rw [if_neg hc] at hl
      have hrec := ih (c :: acc) l hl
      rwa [List.reverse_cons, List.append_assoc, List.singleton_append] at hrec

theorem splitLines_mem_within (s line : String) (h : line ∈ splitLines s) :
    line.data <:+: s.data := by
  have hrec := splitLinesAux_mem_within s.data [] line h
  simpa using hrec

theorem mem_perLineHits (p : String) (il : Nat × String) (h : Hit) :
    h ∈ perLineHits p il ↔
      ∃ d ∈ bannedDomains, includesStr il.2 d = true ∧ h = ⟨p, il.1 + 1, d, jsTrim il.2⟩ := by
  unfold perLineHits
  rw [List.mem_filterMap]
  constructor
  · rintro ⟨d, hd, hif⟩
    by_cases hinc : includesStr il.2 d = true
    · rw [if_pos hinc] at hif
      exact ⟨d, hd, hinc, (Option.some.inj hif).symm⟩
    · rw [if_neg hinc] at hif
      exact absurd hif (Option.noConfusion)
  · rintro ⟨d, hd, hinc, rfl⟩
    exact ⟨d, hd, by rw [if_pos hinc]⟩

theorem mem_findBannedDomains (files : List (String × String)) (root : String) (h : Hit) :
    h ∈ findBannedDomains files root ↔
      ∃ fc ∈ walkFiles files root docPred, ∃ il ∈ (splitLines fc.2).enum,
        ∃ d ∈ bannedDomains, includesStr il.2 d = true ∧
          h = ⟨fc.1, il.1 + 1, d, jsTrim il.2⟩ := by
  unfold findBannedDomains perFileHits
  simp only [List.mem_flatMap, mem_perLineHits]

/-- Claim C4: the banned-domain scanner selects exactly the files whose
path ends in `.mdx`/`.md` or whose basename is `docs.json`, splits on
LF/CRLF, uses substring containment per line, and records hits carrying
the file path, the 1-indexed line number, the matched domain and the
trimmed line text; a selected file whose content contains no banned
domain contributes no hit (paths assumed distinct, as produced by a
directory walk). -/
theorem claim_C4_banned_scan (files : List (String × String)) (root : String) :
    (∀ h : Hit, h ∈ findBannedDomains files root ↔
      ∃ fc ∈ walkFiles files root docPred, ∃ il ∈ (splitLines fc.2).enum,
        ∃ d ∈ bannedDomains, includesStr il.2 d = true ∧
          h = ⟨fc.1, il.1 + 1, d, jsTrim il.2⟩) ∧
    ((files.map Prod.fst).Nodup →
      ∀ fc ∈ walkFiles files root docPred,
        (∀ d ∈ bannedDomains, includesStr fc.2 d = false) →
        ∀ h ∈ findBannedDomains files root, h.file ≠ fc.1) := by
  refine ⟨mem_findBannedDomains files root, ?_⟩
  intro hnd fc hfc hclean h hh heq
  rw [mem_findBannedDomains] at hh
  obtain ⟨fc', hfc', il, hil, d, hd, hinc, rfl⟩ := hh
  have hfcmem : fc' ∈ files := (List.mem_filter.mp hfc').1
  have hfcmem2 : fc ∈ files := (List.mem_filter.mp hfc).1
  have hfceq : fc' = fc := List.inj_on_of_nodup_map hnd hfcmem hfcmem2 heq
  subst hfceq
  have hline : il.2 ∈ splitLines fc'.2 := by
    have hsnd := List.mem_map_of_mem Prod.snd hil
    rwa [List.enum_map_snd] at hsnd
  have hinfix : d.data <:+: fc'.2.data :=
    ((includesStr_iff il.2 d).mp hinc).trans (splitLines_mem_within fc'.2 il.2 hline)
  have hcontr := (includesStr_iff fc'.2 d).mpr hinfix
  rw [hclean d hd] at hcontr
  exact Bool.false_ne_true hcontr

/-- Witness for C4 at the spec's scenario: the line
`See https://docs.adsgateway.io/guide for more.` in `overview.mdx`
yields the hit with domain `docs.adsgateway.io`, line 2, and the
trimmed text. -/
theorem claim_C4_banned_scan_witness :
    (⟨"/r/overview.mdx", 2, "docs.adsgateway.io",
        "See https://docs.adsgateway.io/guide for more."⟩ : Hit) ∈
      findBannedDomains
        [("/r/overview.mdx", "intro\n  See https://docs.adsgateway.io/guide for more.  \nbye")]
        "/r" :=
  (claim_C4_banned_scan
      [("/r/overview.mdx", "intro\n  See https://docs.adsgateway.io/guide for more.  \nbye")]
      "/r").1 _ |>.mpr (by decide)

theorem hit_line_of_mem_perLineHits (p : String) (il : Nat × String) (h : Hit)
    (hh : h ∈ perLineHits p il) : h.line = il.1 + 1 := by
  rw [mem_perLineHits] at hh
  obtain ⟨d, _, _, rfl⟩ := hh
  rfl

theorem hit_file_of_mem_perFileHits (fc : String × String) (h : Hit)
    (hh : h ∈ perFileHits fc) : h.file = fc.1 := by
  unfold perFileHits at hh
  rw [List.mem_flatMap] at hh
  obtain ⟨il, _, hil⟩ := hh
  rw [mem_perLineHits] at hil
  obtain ⟨d, _, _, rfl⟩ := hil
  rfl

theorem nodup_bannedDomains : bannedDomains.Nodup := by decide

theorem nodup_perLineHits (p : String) (il : Nat × String) : (perLineHits p il).Nodup := by
  unfold perLineHits
  apply List.Nodup.filterMap _ nodup_bannedDomains
  intro d d' b hb hb'
  by_cases hinc : includesStr il.2 d = true
  · rw [if_pos hinc] at hb
    by_cases hinc' : includesStr il.2 d' = true
    · rw [if_pos hinc'] at hb'
      rw [Option.mem_some_iff] at hb hb'
      have hd : b.domain = d := by rw [← hb]
      have hd' : b.domain = d' := by rw [← hb']
      rw [← hd, ← hd']
    · rw [if_neg hinc'] at hb'
      exact absurd hb' (by simp)
  · rw [if_neg hinc] at hb
    exact absurd hb (by simp)

theorem enum_fst_nodup {α : Type _} (l : List α) : (l.enum.map Prod.fst).Nodup := by
  rw [List.enum_map_fst]
  exact List.nodup_range l.length

theorem nodup_perFileHits (fc : String × String) : (perFileHits fc).Nodup := by
  unfold perFileHits
  rw [List.nodup_flatMap]
  refine ⟨fun il _ => nodup_perLineHits fc.1 il, ?_⟩
  have hpw : (splitLines fc.2).enum.Pairwise (fun a b => a.1 ≠ b.1) :=
    List.pairwise_map.mp (enum_fst_nodup (splitLines fc.2))
  apply hpw.imp
  intro a b hab h hha hhb
  have h1 := hit_line_of_mem_perLineHits fc.1 a h hha
  have h2 := hit_line_of_mem_perLineHits fc.1 b h hhb
  exact hab (by omega)

theorem nodup_findBannedDomains (files : List (String × String)) (root : String)
    (hnd : (files.map Prod.fst).Nodup) : (findBannedDomains files root).Nodup := by
  unfold findBannedDomains
  rw [List.nodup_flatMap]
  refine ⟨fun fc _ => nodup_perFileHits fc, ?_⟩
  have hsub : (walkFiles files root docPred).Sublist files := List.filter_sublist files
  have hwalknd : ((walkFiles files root docPred).map Prod.fst).Nodup :=
    (hsub.map Prod.fst).nodup hnd
  have hpw : (walkFiles files root docPred).Pairwise (fun a b => a.1 ≠ b.1) :=
    List.pairwise_map.mp hwalknd
  apply hpw.imp
  intro a b hab h hha hhb
  exact hab ((hit_file_of_mem_perFileHits a h hha).symm.trans
    (hit_file_of_mem_perFileHits b h hhb))

theorem length_le_one_of_allEq {α : Type _} (l : List α) (hnd : l.Nodup)
    (he : ∀ a ∈ l, ∀ b ∈ l, a = b) : l.length ≤ 1 := by
  match l with
  | [] => simp
  | [x] => simp
  | x :: y :: t =>
    have hxy : x = y := he x (by simp) y (by simp)
    subst hxy
    rw [List.nodup_cons] at hnd
    exact absurd (List.mem_cons_self x t) hnd.1

/-- Claim C10: for every file, line and banned domain at most one hit
carries that (file, line number, domain) triple even when the domain
occurs several times within the line, while distinct banned domains on
the same line each produce their own hit (paths assumed distinct, as
produced by a directory walk). -/
theorem claim_C10_hit_multiplicity (files : List (String × String)) (root : String)
    (hnd : (files.map Prod.fst).Nodup) :
    (∀ f l d, (findBannedDomains files root).countP
        (fun h => h.file == f && h.line == l && h.domain == d) ≤ 1) ∧
    (∀ fc ∈ walkFiles files root docPred, ∀ il ∈ (splitLines fc.2).enum,
      ∀ d₁ ∈ bannedDomains, ∀ d₂ ∈ bannedDomains,
        includesStr il.2 d₁ = true → includesStr il.2 d₂ = true →
        ((⟨fc.1, il.1 + 1, d₁, jsTrim il.2⟩ : Hit) ∈ findBannedDomains files root ∧
         (⟨fc.1, il.1 + 1, d₂, jsTrim il.2⟩ : Hit) ∈ findBannedDomains files root)) := by
  constructor
  · intro f l d
    rw [List.countP_eq_length_filter]
    apply length_le_one_of_allEq
    · exact (List.filter_sublist _).nodup (nodup_findBannedDomains files root hnd)
    · intro a ha b hb
      rw [List.mem_filter] at ha hb
      obtain ⟨ha1, ha2⟩ := ha
      obtain ⟨hb1, hb2⟩ := hb
      simp only [Bool.and_eq_true, beq_iff_eq] at ha2 hb2
      obtain ⟨⟨haf, hal⟩, had⟩ := ha2
      obtain ⟨⟨hbf, hbl⟩, hbd⟩ := hb2
      obtain ⟨fca, hfca, ila, hila, da, hda, hinca, rfl⟩ :=
        (mem_findBannedDomains files root a).mp ha1
      obtain ⟨fcb, hfcb, ilb, hilb, db, hdb, hincb, rfl⟩ :=
        (mem_findBannedDomains files root b).mp hb1
      have haf2 : fca.1 = f := haf
      have hbf2 : fcb.1 = f := hbf
      have hal2 : ila.1 + 1 = l := hal
      have hbl2 : ilb.1 + 1 = l := hbl
      have had2 : da = d := had
      have hbd2 : db = d := hbd
      have hfcab : fca = fcb :=
        List.inj_on_of_nodup_map hnd (List.mem_filter.mp hfca).1
          (List.mem_filter.mp hfcb).1 (haf2.trans hbf2.symm)
      subst hfcab
      have hilab : ila = ilb :=
        List.inj_on_of_nodup_map (enum_fst_nodup (splitLines fca.2)) hila hilb (by omega)
      subst hilab
      rw [had2.trans hbd2.symm]
  · intro fc hfc il hil d₁ hd₁ d₂ hd₂ hinc₁ hinc₂
    exact ⟨(mem_findBannedDomains files root _).mpr ⟨fc, hfc, il, hil, d₁, hd₁, hinc₁, rfl⟩,
           (mem_findBannedDomains files root _).mpr ⟨fc, hfc, il, hil, d₂, hd₂, hinc₂, rfl⟩⟩

/-- Witness for C10: a line containing the same banned domain twice
produces at most one hit for its (file, line, domain) triple. -/
theorem claim_C10_hit_multiplicity_witness :
    (findBannedDomains [("/r/a.mdx", "x docs.adsgateway.io y docs.adsgateway.io z")]
        "/r").countP
      (fun h => h.file == "/r/a.mdx" && h.line == 1 && h.domain == "docs.adsgateway.io") ≤ 1 :=
  (claim_C10_hit_multiplicity [("/r/a.mdx", "x docs.adsgateway.io y docs.adsgateway.io z")]
      "/r" (by decide)).1 "/r/a.mdx" 1 "docs.adsgateway.io"

theorem mainRun_noTools (w : World)
    (h : existsPath w (pathJoin w.cwd "tools") = false) :
    mainRun w = { exitCode := 1, stdout := [],
                  stderr := failedBlock "Missing tools/ directory in docs repo." } := by
  simp only [mainRun]
  rw [h, if_neg Bool.false_ne_true]

theorem mainRun_loadError (w : World) (e : String)
    (hex : existsPath w (pathJoin w.cwd "tools") = true)
    (hl : loadMcpToolsJson w = Except.error e) :
    mainRun w = { exitCode := 1, stdout := [], stderr := failedBlock e } := by
  simp only [mainRun]
  rw [hex, if_pos rfl, hl]

theorem mainRun_checked (w : World) (j : Json)
    (hex : existsPath w (pathJoin w.cwd "tools") = true)
    (hl : loadMcpToolsJson w = Except.ok j) :
    mainRun w =
      (if ((checkToolsCovered w.files (extractToolNames j) (pathJoin w.cwd "tools")).2.isEmpty
            && (findBannedDomains w.files w.cwd).isEmpty) = true then
        { exitCode := 0,
          stdout := [okLine (extractToolNames j).length], stderr := [] }
      else
        { exitCode := 1, stdout := [],
          stderr :=
            (if (checkToolsCovered w.files (extractToolNames j)
                  (pathJoin w.cwd "tools")).2.isEmpty then []
              else missingBlock (checkToolsCovered w.files (extractToolNames j)
                  (pathJoin w.cwd "tools")).2) ++
            (if (findBannedDomains w.files w.cwd).isEmpty then []
              else bannedBlock w.cwd (findBannedDomains w.files w.cwd)) }) := by
  simp only [mainRun]
  rw [hex, if_pos rfl, hl]

/-- Claim C7: the remote fetch issues a GET with `Accept:
application/json`, the fixed user agent, and a Bearer authorization
header exactly when a token is present under `GITHUB_TOKEN` or, failing
that, `GH_TOKEN`; an HTTP status of at least 400 rejects with the
status code and the URL, and a malformed JSON body rejects with an
error naming the URL. -/
theorem claim_C7_fetch_contract (w : World) :
    (requestFor w).method = "GET" ∧
    ("Accept", "application/json") ∈ (requestFor w).headers ∧
    ("User-Agent", "adsgateway-docs-guardrails") ∈ (requestFor w).headers ∧
    (w.envGithubToken ≠ "" →
      ("Authorization", "Bearer " ++ w.envGithubToken) ∈ (requestFor w).headers) ∧
    (w.envGithubToken = "" → w.envGhToken ≠ "" →
      ("Authorization", "Bearer " ++ w.envGhToken) ∈ (requestFor w).headers) ∧
    (w.envGithubToken = "" → w.envGhToken = "" →
      ∀ v, ("Authorization", v) ∉ (requestFor w).headers) ∧
    (∀ url code body, w.fetch url = Except.ok (some code, body) → 400 ≤ code →
      fetchJson w url =
        Except.error ("Fetch failed (" ++ toString code ++ ") for " ++ url)) ∧
    (∀ url status body m, w.fetch url = Except.ok (status, body) →
      (∀ code, status = some code → code < 400) →
      w.parse body = Except.error m →
      fetchJson w url = Except.error ("Invalid JSON from " ++ url ++ ": " ++ m)) := by
  refine ⟨rfl, ?_, ?_, ?_, ?_, ?_, ?_, ?_⟩
  · simp [requestFor]
  · simp [requestFor]
  · intro h
    simp [requestFor, tokenOf, h]
  · intro h1 h2
    simp [requestFor, tokenOf, h1, h2]
  · intro h1 h2 v hv
    simp [requestFor, tokenOf, h1, h2] at hv
  · intro url code body hf hc
    simp only [fetchJson, hf]
    rw [if_pos hc]
  · intro url status body m hf hs hp
    cases status with
    | none => simp only [fetchJson, hf, parseBody, hp]
    | some code =>
      simp only [fetchJson, hf]
      rw [if_neg (by have := hs code rfl; omega)]
      simp only [parseBody, hp]

/-- Witness for C7: with `GITHUB_TOKEN` set, the request carries the
bearer header, and a 404 response rejects with status and URL. -/
theorem claim_C7_fetch_contract_witness :
    ("Authorization", "Bearer tok") ∈ (requestFor wFetch404).headers ∧
    fetchJson wFetch404 "u" = Except.error ("Fetch failed (404) for u") :=
  ⟨(claim_C7_fetch_contract wFetch404).2.2.2.1 (by decide),
   (claim_C7_fetch_contract wFetch404).2.2.2.2.2.2.1 "u" 404 "" rfl (by omega)⟩

theorem blocks_ne_nil (m : List String) (hits : List Hit) (root : String)
    (h : ¬(m.isEmpty && hits.isEmpty) = true) :
    ((if m.isEmpty then [] else missingBlock m) ++
      (if hits.isEmpty then [] else bannedBlock root hits)) ≠ [] := by
  intro hcontr
  obtain ⟨h1, h2⟩ := List.append_eq_nil.mp hcontr
  by_cases hm : m.isEmpty = true
  · by_cases hb : hits.isEmpty = true
    · exact h (by rw [hm, hb]; rfl)
    · rw [if_neg hb] at h2
      exact absurd h2 (by simp [bannedBlock])
  · rw [if_neg hm] at h1
    exact absurd h1 (by simp [missingBlock])

/-- Claim C5: the process exits 0 printing the single success line to
stdout exactly when the missing-tools list and the banned-hit list are
both empty and no error was thrown; otherwise it exits 1 with nothing
on stdout, printing the per-category diagnostic blocks on violations
and the failure block (with the error message) on a thrown error. -/
theorem claim_C5_exit_policy (w : World) :
    ((mainRun w).exitCode = 0 ↔ mainOk w = true) ∧
    ((mainRun w).exitCode = 0 ∨ (mainRun w).exitCode = 1) ∧
    (∀ j, loadMcpToolsJson w = Except.ok j → mainOk w = true →
      mainRun w = { exitCode := 0,
                    stdout := [okLine (extractToolNames j).length], stderr := [] }) ∧
    (mainOk w = false →
      (mainRun w).exitCode = 1 ∧ (mainRun w).stdout = [] ∧ (mainRun w).stderr ≠ []) ∧
    (∀ j, existsPath w (pathJoin w.cwd "tools") = true →
      loadMcpToolsJson w = Except.ok j →
      ¬((checkToolsCovered w.files (extractToolNames j) (pathJoin w.cwd "tools")).2 = [] ∧
          findBannedDomains w.files w.cwd = []) →
      (mainRun w).exitCode = 1 ∧ (mainRun w).stdout = [] ∧
      (mainRun w).stderr =
        (if (checkToolsCovered w.files (extractToolNames j) (pathJoin w.cwd "tools")).2.isEmpty
          then []
          else missingBlock
            (checkToolsCovered w.files (extractToolNames j) (pathJoin w.cwd "tools")).2) ++
        (if (findBannedDomains w.files w.cwd).isEmpty then []
          else bannedBlock w.cwd (findBannedDomains w.files w.cwd))) ∧
    (∀ e, existsPath w (pathJoin w.cwd "tools") = true →
      loadMcpToolsJson w = Except.error e →
      mainRun w = { exitCode := 1, stdout := [], stderr := failedBlock e }) := by
  by_cases hex : existsPath w (pathJoin w.cwd "tools") = true
  · cases hload : loadMcpToolsJson w with
    | error e =>
      have hrun := mainRun_loadError w e hex hload
      have hok : mainOk w = false := by
        simp only [mainOk, hload, hex, Bool.true_and]
      refine ⟨?_, ?_, ?_, ?_, ?_, ?_⟩
      · rw [hrun, hok]; simp
      · rw [hrun]; right; rfl
      · intro j hj
        exact fun _ => Except.noConfusion hj
      · intro _; rw [hrun]; exact ⟨rfl, rfl, by simp [failedBlock]⟩
      · intro j _ hj
        exact fun _ => Except.noConfusion hj
      · intro e2 _ hl2
        have hee : e = e2 := Except.error.inj hl2
        rw [hrun, hee]
    | ok j =>
      have hrun := mainRun_checked w j hex hload
      have hok : mainOk w =
          ((checkToolsCovered w.files (extractToolNames j) (pathJoin w.cwd "tools")).2.isEmpty
            && (findBannedDomains w.files w.cwd).isEmpty) := by
        simp only [mainOk, hload, hex, Bool.true_and]
      by_cases hboth :
          ((checkToolsCovered w.files (extractToolNames j) (pathJoin w.cwd "tools")).2.isEmpty
            && (findBannedDomains w.files w.cwd).isEmpty) = true
      · rw [hboth] at hok
        rw [if_pos hboth] at hrun
        refine ⟨?_, ?_, ?_, ?_, ?_, ?_⟩
        · rw [hrun, hok]; simp
        · rw [hrun]; left; rfl
        · intro j2 hj2 _
          have hjj : j = j2 := Except.ok.inj hj2
          rw [hrun, hjj]
        · intro hf; rw [hok] at hf; exact absurd hf (by simp)
        · intro j2 _ hj2 hne
          have hjj : j = j2 := Except.ok.inj hj2
          subst hjj
          simp only [Bool.and_eq_true, List.isEmpty_iff] at hboth
          exact absurd ⟨hboth.1, hboth.2⟩ hne
        · intro e2 _ hl2
          exact Except.noConfusion hl2
      · have hboth2 : ((checkToolsCovered w.files (extractToolNames j)
            (pathJoin w.cwd "tools")).2.isEmpty
              && (findBannedDomains w.files w.cwd).isEmpty) = false := by
          rw [Bool.eq_false_iff]; exact hboth
        rw [hboth2] at hok
        rw [hboth2, if_neg Bool.false_ne_true] at hrun
        refine ⟨?_, ?_, ?_, ?_, ?_, ?_⟩
        · rw [hrun, hok]; simp
        · rw [hrun]; right; rfl
        · intro j2 hj2 hmok; rw [hmok] at hok; exact absurd hok.symm (by simp)
        · intro _
          rw [hrun]
          exact ⟨rfl, rfl, blocks_ne_nil _ _ _ hboth⟩
        · intro j2 _ hj2 _
          have hjj : j = j2 := Except.ok.inj hj2
          subst hjj
          rw [hrun]
          exact ⟨rfl, rfl, rfl⟩
        · intro e2 _ hl2
          exact Except.noConfusion hl2
  · have hex2 : existsPath w (pathJoin w.cwd "tools") = false := by
      rw [Bool.eq_false_iff]; exact hex
    have hrun := mainRun_noTools w hex2
    have hok : mainOk w = false := by
      simp only [mainOk, hex2, Bool.false_and]
    refine ⟨?_, ?_, ?_, ?_, ?_, ?_⟩
    · rw [hrun, hok]; simp
    · rw [hrun]; right; rfl
    · intro j hj hmok; rw [hmok] at hok; exact absurd hok.symm (by simp)
    · intro _; rw [hrun]; exact ⟨rfl, rfl, by simp [failedBlock]⟩
    · intro j hext; exact absurd hext hex
    · intro e hext; exact absurd hext hex

/-- Witness for C5 at a concrete world with no manifest source: the run
is not OK, exits 1, prints nothing to stdout and something to stderr. -/
theorem claim_C5_exit_policy_witness :
    (mainRun wNoManifest).exitCode = 1 ∧ (mainRun wNoManifest).stdout = [] ∧
      (mainRun wNoManifest).stderr ≠ [] :=
  (claim_C5_exit_policy wNoManifest).2.2.2.1 (by decide)

theorem lookupFile_isSome_congr :
    ∀ (files files' : List (String × String)), files.map Prod.fst = files'.map Prod.fst →
      ∀ p, (lookupFile files p).isSome = (lookupFile files' p).isSome := by
  intro files
  induction files with
  | nil =>
    intro files' h p
    cases files' with
    | nil => rfl
    | cons b m => simp at h
  | cons a l ih =>
    intro files' h p
    cases files' with
    | nil => simp at h
    | cons b m =>
      rcases a with ⟨qa, ca⟩
      rcases b with ⟨qb, cb⟩
      simp only [List.map_cons, List.cons.injEq] at h
      obtain ⟨h1, h2⟩ := h
      subst h1
      by_cases hq : qa = p
      · simp [lookupFile, hq]
      · simp [lookupFile, hq, ih m h2 p]

theorem existsPath_files_congr (w : World) (files' : List (String × String))
    (h : files'.map Prod.fst = w.files.map Prod.fst) (p : String) :
    existsPath { w with files := files' } p = existsPath w p := by
  unfold existsPath
  rw [lookupFile_isSome_congr files' w.files h p]

/-- Claim C8: when the `tools/` directory does not exist the run fails
with the fatal message and exit status 1, and the outcome is
independent of every manifest source (environment overrides, parser,
network) and of all file contents -- the failure precedes manifest
resolution and scanning. -/
theorem claim_C8_missing_tools_dir (w : World)
    (h : existsPath w (pathJoin w.cwd "tools") = false) :
    mainRun w = { exitCode := 1, stdout := [],
                  stderr := failedBlock "Missing tools/ directory in docs repo." } ∧
    (mainRun w).exitCode ≠ 0 ∧
    (∀ p u g g2 pr f, mainRun { w with envMcpToolsJsonPath := p, envMcpToolsJsonUrl := u, envGithubToken := g, envGhToken := g2, parse := pr, fetch := f } = mainRun w) ∧
    (∀ files', files'.map Prod.fst = w.files.map Prod.fst →
      mainRun { w with files := files' } = mainRun w) := by
  have hrun := mainRun_noTools w h
  refine ⟨hrun, by rw [hrun]; simp, ?_, ?_⟩
  · intro p u g g2 pr f
    have h2 : existsPath { w with envMcpToolsJsonPath := p, envMcpToolsJsonUrl := u, envGithubToken := g, envGhToken := g2, parse := pr, fetch := f } (pathJoin w.cwd "tools") = false := h
    rw [mainRun_noTools _ h2, hrun]
  · intro files' hf
    have h2 : existsPath { w with files := files' } (pathJoin w.cwd "tools") = false := by
      rw [existsPath_files_congr w files' hf]
      exact h
    rw [mainRun_noTools _ h2, hrun]

/-- Witness for C8 at a concrete world without a `tools/` directory. -/
theorem claim_C8_missing_tools_dir_witness :
    mainRun wNoTools = { exitCode := 1, stdout := [], stderr := failedBlock "Missing tools/ directory in docs repo." } :=
  (claim_C8_missing_tools_dir wNoTools (by decide)).1

/-- Claim C3: the manifest resolver tries, in order, the explicit
`MCP_TOOLS_JSON_PATH` override (parse errors propagating), the sibling
repository path when that file exists, the `MCP_TOOLS_JSON_URL` remote
fetch, and the vendored `tooling/mcp-tools.json`, short-circuiting at
the first available source (in particular the network is never
consulted once an earlier source applies); when none applies it fails
with a message naming both configuration variables and the vendored
path, and a resolution error aborts the run with exit 1 before any
scanning output. -/
theorem claim_C3_manifest_resolution (w : World) :
    (jsTrim w.envMcpToolsJsonPath ≠ "" →
      loadMcpToolsJson w =
        (readText w (if isAbsolutePath (jsTrim w.envMcpToolsJsonPath) then
          jsTrim w.envMcpToolsJsonPath
          else pathJoin w.cwd (jsTrim w.envMcpToolsJsonPath))).bind w.parse ∧
      (∀ u f, loadMcpToolsJson { w with envMcpToolsJsonUrl := u, fetch := f } =
        loadMcpToolsJson w)) ∧
    (jsTrim w.envMcpToolsJsonPath = "" →
      existsPath w (siblingManifestPath w.cwd) = true →
      loadMcpToolsJson w = (readText w (siblingManifestPath w.cwd)).bind w.parse ∧
      (∀ u f, loadMcpToolsJson { w with envMcpToolsJsonUrl := u, fetch := f } =
        (readText w (siblingManifestPath w.cwd)).bind w.parse)) ∧
    (jsTrim w.envMcpToolsJsonPath = "" →
      existsPath w (siblingManifestPath w.cwd) = false →
      jsTrim w.envMcpToolsJsonUrl ≠ "" →
      loadMcpToolsJson w = fetchJson w (jsTrim w.envMcpToolsJsonUrl)) ∧
    (jsTrim w.envMcpToolsJsonPath = "" →
      existsPath w (siblingManifestPath w.cwd) = false →
      jsTrim w.envMcpToolsJsonUrl = "" →
      existsPath w (vendoredManifestPath w.cwd) = true →
      loadMcpToolsJson w = (readText w (vendoredManifestPath w.cwd)).bind w.parse) ∧
    (jsTrim w.envMcpToolsJsonPath = "" →
      existsPath w (siblingManifestPath w.cwd) = false →
      jsTrim w.envMcpToolsJsonUrl = "" →
      existsPath w (vendoredManifestPath w.cwd) = false →
      loadMcpToolsJson w = Except.error noManifestMsg ∧
      includesStr noManifestMsg "MCP_TOOLS_JSON_PATH" = true ∧
      includesStr noManifestMsg "MCP_TOOLS_JSON_URL" = true ∧
      includesStr noManifestMsg "tooling/mcp-tools.json" = true) ∧
    (∀ e, loadMcpToolsJson w = Except.error e →
      existsPath w (pathJoin w.cwd "tools") = true →
      mainRun w = { exitCode := 1, stdout := [], stderr := failedBlock e }) := by
  refine ⟨?_, ?_, ?_, ?_, ?_, ?_⟩
  · intro h
    constructor
    · simp only [loadMcpToolsJson]
      rw [if_pos h]
    · intro u f
      simp only [loadMcpToolsJson]
      rw [if_pos h, if_pos h]
      rfl
  · intro h hs
    constructor
    · simp only [loadMcpToolsJson]
      rw [if_neg (fun hc => hc h), if_pos hs]
    · intro u f
      have hs2 : existsPath { w with envMcpToolsJsonUrl := u, fetch := f } (siblingManifestPath w.cwd) = true := hs
      simp only [loadMcpToolsJson]
      rw [if_neg (fun hc => hc h), if_pos hs2]
      rfl
  · intro h hs hu
    simp only [loadMcpToolsJson]
    rw [if_neg (fun hc => hc h), if_neg (by simp [hs]), if_pos hu]
  · intro h hs hu hv
    simp only [loadMcpToolsJson]
    rw [if_neg (fun hc => hc h), if_neg (by simp [hs]), if_neg (fun hc => hc hu), if_pos hv]
  · intro h hs hu hv
    refine ⟨?_, by decide, by decide, by decide⟩
    simp only [loadMcpToolsJson]
    rw [if_neg (fun hc => hc h), if_neg (by simp [hs]), if_neg (fun hc => hc hu),
      if_neg (by simp [hv])]
  · intro e hl hex
    exact mainRun_loadError w e hex hl

/-- Witness for C3 at a concrete world with no manifest source: the
resolver fails with the documented message and the run aborts with
exit 1 and the failure block. -/
theorem claim_C3_manifest_resolution_witness :
    loadMcpToolsJson wNoManifest = Except.error noManifestMsg ∧
    mainRun wNoManifest = { exitCode := 1, stdout := [], stderr := failedBlock noManifestMsg } := by
  have hc := claim_C3_manifest_resolution wNoManifest
  have h5 := hc.2.2.2.2.1 (by decide) (by decide) (by decide) (by decide)
  exact ⟨h5.1, hc.2.2.2.2.2 noManifestMsg h5.1 (by decide)⟩

/-- Claim C9: a manifest that is neither an array nor an object with a
`tools` array, or whose entries all lack a usable name, yields an empty
extracted list; the coverage check then reports no missing tool for any
tree, and a run over a tree without banned domains succeeds with exit 0
reporting 0 tools covered. -/
theorem claim_C9_degenerate_manifest (j : Json)
    (hj : ∀ t ∈ toolsOf j, entryName t = none) :
    extractToolNames j = [] ∧
    (∀ j' : Json, (∀ xs, j' ≠ Json.arr xs) →
      (∀ xs, getField j' "tools" ≠ some (Json.arr xs)) → toolsOf j' = []) ∧
    (∀ files root, (checkToolsCovered files (extractToolNames j) root).2 = []) ∧
    (∀ w : World, existsPath w (pathJoin w.cwd "tools") = true →
      loadMcpToolsJson w = Except.ok j →
      findBannedDomains w.files w.cwd = [] →
      mainRun w = { exitCode := 0, stdout := [okLine 0], stderr := [] }) := by
  have hext : extractToolNames j = [] := by
    unfold extractToolNames
    rw [List.filterMap_eq_nil_iff.mpr hj]
    rfl
  refine ⟨hext, ?_, ?_, ?_⟩
  · intro j' h1 h2
    cases j' with
    | arr xs => exact absurd rfl (h1 xs)
    | null => rfl
    | bool b => cases b <;> rfl
    | num n =>
      simp only [toolsOf, getField]
      split <;> rfl
    | str s =>
      simp only [toolsOf, getField]
      split <;> rfl
    | obj fields =>
      have heq : toolsOf (Json.obj fields) =
          (match lookupField fields "tools" with
            | some (Json.arr xs) => xs
            | _ => []) := rfl
      rw [heq]
      cases hl : lookupField fields "tools" with
      | none => rfl
      | some v =>
        cases v with
        | arr xs =>
          exact absurd (show getField (Json.obj fields) "tools" = some (Json.arr xs) from hl)
            (h2 xs)
        | null => rfl
        | bool b => rfl
        | num n => rfl
        | str s2 => rfl
        | obj f2 => rfl
  · intro files root
    unfold checkToolsCovered
    rw [hext]
    rfl
  · intro w hex hl hban
    have hrun := mainRun_checked w j hex hl
    rw [hext, hban] at hrun
    rw [hrun]
    rfl

/-- Witness for C9 at a concrete world whose manifest parses to a bare
string: the run succeeds reporting 0 tools covered. -/
theorem claim_C9_degenerate_manifest_witness :
    mainRun wEmptyManifest = { exitCode := 0, stdout := [okLine 0], stderr := [] } :=
  (claim_C9_degenerate_manifest (Json.str "nope")
      (fun t ht => absurd (show t ∈ ([] : List Json) from ht) (List.not_mem_nil t))).2.2.2
    wEmptyManifest (by decide) rfl rfl
